import Mathlib

set_option maxHeartbeats 1000000

/-! # Verification of the cyn lexing/parsing core

Shallow embedding of the cyn repository's lexer and token-tree builder
(src/buffers/parse.rs), punctuator matcher and token model (src/tokens.rs),
and the speculative-advance parse primitive (modelled from the spec where the
source file is not available).  Machine integers are modelled as `Int`/`Nat`
with explicit range checks where the source behaviour depends on them.
-/

/-- ASCII restriction of Rust `char::is_alphabetic` (every input appearing in
the claims is ASCII, where the two notions agree). -/
def rustIsAlphabetic (c : Char) : Bool := c.isAlpha

/-- ASCII restriction of Rust `char::is_numeric`. -/
def rustIsNumeric (c : Char) : Bool := c.isDigit

/-- Rust `char::is_alphanumeric`: alphabetic or numeric. -/
def rustIsAlphanumeric (c : Char) : Bool := rustIsAlphabetic c || rustIsNumeric c

/-- ASCII restriction of Rust `char::is_whitespace`. -/
def rustIsWhitespace (c : Char) : Bool := c.isWhitespace

/-- The identifier-run guard of src/buffers/parse.rs lines 64-68:
alphanumeric or underscore. -/
def identCont (c : Char) : Bool := rustIsAlphanumeric c || c = '_'

/-- The numeric-run guard of src/buffers/parse.rs lines 73-77:
numeric or a dot. -/
def numCont (c : Char) : Bool := rustIsNumeric c || c = '.'

/-- The punctuator variants of `define_punctuator!` in src/tokens.rs
(each variant's unit payload struct is omitted). -/
inductive Punct where
  | Dot | Arrow | PlusPlus | MinusMinus | Ampersand | Asterix | Plus | Minus | Tilde
  | ExclamationMark | Slash | Percent | DoubleLeftArrow | DoubleRightArrow | LeftArrow
  | RightArrow | LeftEqualArrow | RightEqualArrow | EqualEqual | ExclamationEqual | Carat
  | VerticalBar | DoubleAmpersand | DoubleVerticalBar | QuestionMark | Colon | SemiColon
  | DotDotDot | Equal | AsterixEqual | SlashEqual | PercentEqual | PlusEqual | MinusEqual
  | DoubleLeftArrowEqual | DoubleRightArrowEqual | AmpersandEqual | CaratEqual
  | VerticalBarEqual | Comma | Hashtag | DoubleHashtag | LeftArrowColon | ColonRightArrow
  | LeftArrowPercent | PercentRightArrow | PercentColon | DoublePercentColon
  deriving DecidableEq, Repr

/-- The MATCH_PUNCT table generated by `define_punctuator!` in src/tokens.rs
lines 292-341, in source order. -/
def MATCH_PUNCT : List (String × Punct) := [
  (".", .Dot), ("->", .Arrow), ("++", .PlusPlus), ("--", .MinusMinus), ("&", .Ampersand),
  ("*", .Asterix), ("+", .Plus), ("-", .Minus), ("~", .Tilde), ("!", .ExclamationMark),
  ("/", .Slash), ("%", .Percent), ("<<", .DoubleLeftArrow), (">>", .DoubleRightArrow),
  ("<", .LeftArrow), (">", .RightArrow), ("<=", .LeftEqualArrow), (">=", .RightEqualArrow),
  ("==", .EqualEqual), ("!=", .ExclamationEqual), ("^", .Carat), ("|", .VerticalBar),
  ("&&", .DoubleAmpersand), ("||", .DoubleVerticalBar), ("?", .QuestionMark), (":", .Colon),
  (";", .SemiColon), ("...", .DotDotDot), ("=", .Equal), ("*=", .AsterixEqual),
  ("/=", .SlashEqual), ("%=", .PercentEqual), ("+=", .PlusEqual), ("-=", .MinusEqual),
  ("<<=", .DoubleLeftArrowEqual), (">>=", .DoubleRightArrowEqual), ("&=", .AmpersandEqual),
  ("^=", .CaratEqual), ("|=", .VerticalBarEqual), (",", .Comma), ("#", .Hashtag),
  ("##", .DoubleHashtag), ("<:", .LeftArrowColon), (":>", .ColonRightArrow),
  ("<%", .LeftArrowPercent), ("%>", .PercentRightArrow), ("%:", .PercentColon),
  ("%:%:", .DoublePercentColon)]

/-- PunctMatch from src/tokens.rs lines 13-17.  The middle variant (a strict
prefix of at least one table entry that matches none exactly) is named
`Part` here; the source calls it Partial. -/
inductive PunctMatch where
  | Matched (p : Punct)
  | Part
  | None
  deriving DecidableEq, Repr

/-- Rust `str::starts_with`: does `cmp` start with `s`? -/
def strStarts (cmp s : String) : Bool := s.data.isPrefixOf cmp.data

/-- `match_punct` from src/tokens.rs lines 19-31: filter the table to entries
having the candidate as a prefix; if one equals the candidate exactly it is
Matched, otherwise a nonempty filter result is a partial match, else None. -/
def match_punct (s : String) : PunctMatch :=
  let fs := MATCH_PUNCT.filter (fun e => strStarts e.1 s)
  match fs.find? (fun e => e.1 = s) with
  | some e => .Matched e.2
  | Option.none => if fs.length ≠ 0 then .Part else .None

/-- Delimeter from src/tokens.rs (define_delimeter!). -/
inductive Delimeter where
  | Paren
  | Brace
  | Bracket
  deriving DecidableEq, Repr

/-- The display text of each delimiter from `define_delimeter!`. -/
def Delimeter.display : Delimeter → String
  | .Paren => "("
  | .Brace => "\x7b"
  | .Bracket => "["

/-- Literal from src/tokens.rs lines 33-38.  The f64 payload of Float is not
modelled (floating point; the lexer never constructs this variant). -/
inductive Literal where
  | Str (s : String)
  | Int (i : Int)
  | Float
  deriving DecidableEq, Repr

/-- Modelled from the spec: the Error of spec section 3 (the source file
error.rs is not under src/): message text and the (row, column) of the
offending token.  The optional parent error is None at every construction
site in the sources shown and is omitted. -/
structure Error where
  msg : String
  col : Nat
  row : Nat
  deriving DecidableEq, Repr

/-- ParsedTy from src/buffers/parse.rs lines 7-13. -/
inductive ParsedTy where
  | Ident (s : String)
  | Literal (l : Literal)
  | Punct (p : Punct)
  | Group (d : Delimeter)
  | End (d : Delimeter)
  deriving DecidableEq, Repr

/-- Parsed from src/buffers/parse.rs lines 15-19: a flat scan unit with the
column and row recorded for it. -/
structure Parsed where
  col : Nat
  row : Nat
  ty : ParsedTy
  deriving DecidableEq, Repr

/-- A (column, row) pair of the scanner's position counters. -/
structure Pos where
  col : Nat
  row : Nat
  deriving DecidableEq, Repr

/-- The position update performed by the `from_fn` closure of parse.rs lines
29-41 when a character is pulled from the underlying iterator: a newline sets
the column to 0 and increments the row, anything else increments the column. -/
def adv (c : Char) (p : Pos) : Pos :=
  if c = '\n' then ⟨0, p.row + 1⟩ else ⟨p.col + 1, p.row⟩

/-- Output of a `peeking_take_while` run: the collected run, the remaining
characters, whether the head of the remainder has already been pulled through
the position-tracking iterator (it sits in the Peekable cache), and the
position counters afterwards. -/
structure RunOut where
  run : List Char
  rest : List Char
  pulledNext : Bool
  pos : Pos
  deriving Repr

/-- Models `peeking_take_while g`: consume the maximal run satisfying `g`.
`pulledHead` records whether the head of the list has already been pulled
(and hence already counted in `p`); the stopping character, if any, is pulled
by the final peek. -/
def peekRun (g : Char → Bool) : List Char → Bool → Pos → RunOut
  | [], _, p => ⟨[], [], false, p⟩
  | c :: t, pulledHead, p =>
    let p1 := if pulledHead then p else adv c p
    if g c then
      let r := peekRun g t false p1
      ⟨c :: r.run, r.rest, r.pulledNext, r.pos⟩
    else ⟨[], c :: t, true, p1⟩

/-- Output of the string-literal `take_while` of parse.rs lines 110-116. -/
structure StrOut where
  run : List Char
  rest : List Char
  found : Bool
  pos : Pos
  deriving Repr

/-- Models the string-literal scan: consume characters up to and including
the next quote (the quote itself is consumed but excluded from the run);
`found` records whether a closing quote was seen before the input ended.
The head of the input list has not been pulled yet. -/
def takeStr : List Char → Pos → StrOut
  | [], p => ⟨[], [], false, p⟩
  | c :: t, p =>
    let p1 := adv c p
    if c = '"' then ⟨[], t, true, p1⟩
    else
      let r := takeStr t p1
      ⟨c :: r.run, r.rest, r.found, r.pos⟩

/-- Outcome of the punctuator loop of parse.rs lines 130-160: either a
punctuator to emit (with the remaining characters, whether their head is
already pulled, and the position counters), or the fatal-error candidate
string. -/
inductive PunctOut where
  | emit (q : Punct) (rest : List Char) (pulledNext : Bool) (pos : Pos)
  | fail (pstr : String)
  deriving Repr

/-- The punctuator loop after its first iteration.  The head of the list has
not been pulled yet; `pstr` is the candidate built so far and `cur` the last
Matched result (erased again whenever the match result is partial,
mirroring lines 140-142 of parse.rs). -/
def punctLoop (pstr : String) (cur : Option Punct) : List Char → Pos → PunctOut
  | [], p =>
    match cur with
    | some q => .emit q [] false p
    | Option.none => .fail pstr
  | c :: t, p =>
    let p1 := adv c p
    let pstr1 := pstr.push c
    match match_punct pstr1 with
    | .Matched m => punctLoop pstr1 (some m) t p1
    | .Part => punctLoop pstr1 Option.none t p1
    | .None =>
      match cur with
      | some q => .emit q (c :: t) true p1
      | Option.none => .fail pstr1

/-- First iteration of the punctuator loop: the head character has already
been pulled (it was peeked by the outer loop), so the position counters do
not move for it. -/
def punctFirst (c : Char) (t : List Char) (p : Pos) : PunctOut :=
  let pstr1 := "".push c
  match match_punct pstr1 with
  | .Matched m => punctLoop pstr1 (some m) t p
  | .Part => punctLoop pstr1 Option.none t p
  | .None => .fail pstr1

/-- Decimal accumulation for the digit tail of an integer literal. -/
def decDigitsGo (acc : Nat) : List Char → Option Nat
  | [] => some acc
  | c :: t => if c.isDigit then decDigitsGo (acc * 10 + (c.toNat - '0'.toNat)) t
              else Option.none

/-- All characters must be ASCII digits and the list nonempty. -/
def decDigits : List Char → Option Nat
  | [] => Option.none
  | c :: t => if c.isDigit then decDigitsGo (c.toNat - '0'.toNat) t else Option.none

def i128Max : Int := 2 ^ 127 - 1

def i128Min : Int := -(2 ^ 127)

/-- Models Rust `str::parse::<i128>`: an optional sign, then at least one
digit and nothing else, with the value within the signed 128-bit range. -/
def parseI128 (s : String) : Option Int :=
  let sd :=
    match s.data with
    | '-' :: t => (true, t)
    | '+' :: t => (false, t)
    | t => (false, t)
  match decDigits sd.2 with
  | some n =>
    let v : Int := if sd.1 then -(n : Int) else (n : Int)
    if i128Min ≤ v ∧ v ≤ i128Max then some v else Option.none
  | Option.none => Option.none

/-- Result of lexing: a value, a returned lex Error, or an uncatchable
process abort (the `.unwrap()` panic on the integer parse, parse.rs line 80). -/
inductive LexResult (α : Type) where
  | ok (v : α)
  | err (e : Error)
  | abort
  deriving DecidableEq, Repr

/-- The main loop of `fn split` (src/buffers/parse.rs lines 21-164),
fuel-indexed.  `pulledHead`: whether the head of `l` has already been pulled
through the position iterator (cached in the Peekable); `pos`: the col/row
cells; `old`: the col_old/row_old cells (the last-token-boundary position
recorded for the next emitted unit); `acc`: the output vector.  A result of
`Option.none` means out of fuel, which never happens for fuel > l.length. -/
def scan : Nat → List Char → Bool → Pos → Pos → List Parsed →
    Option (LexResult (List Parsed))
  | 0, _, _, _, _, _ => Option.none
  | _ + 1, [], _, _, _, acc => some (.ok acc)
  | fuel + 1, c :: t, pulledHead, pos, old, acc =>
    let pos1 := if pulledHead then pos else adv c pos
    if rustIsAlphabetic c then
      let r := peekRun identCont (c :: t) true pos1
      scan fuel r.rest r.pulledNext r.pos r.pos
        (acc ++ [⟨old.col, old.row, .Ident (String.mk r.run)⟩])
    else if rustIsNumeric c then
      let r := peekRun numCont (c :: t) true pos1
      match parseI128 (String.mk r.run) with
      | some n => scan fuel r.rest r.pulledNext r.pos r.pos
          (acc ++ [⟨old.col, old.row, .Literal (.Int n)⟩])
      | Option.none => some .abort
    else if c = '(' then
      scan fuel t false pos1 pos1 (acc ++ [⟨old.col, old.row, .Group .Paren⟩])
    else if c = ')' then
      scan fuel t false pos1 pos1 (acc ++ [⟨old.col, old.row, .End .Paren⟩])
    else if c = '\x7b' then
      scan fuel t false pos1 pos1 (acc ++ [⟨old.col, old.row, .Group .Brace⟩])
    else if c = '\x7d' then
      scan fuel t false pos1 pos1 (acc ++ [⟨old.col, old.row, .End .Brace⟩])
    else if c = '[' then
      scan fuel t false pos1 pos1 (acc ++ [⟨old.col, old.row, .Group .Bracket⟩])
    else if c = ']' then
      scan fuel t false pos1 pos1 (acc ++ [⟨old.col, old.row, .End .Bracket⟩])
    else if c = '"' then
      let r := takeStr t pos1
      if r.found then
        scan fuel r.rest false r.pos r.pos
          (acc ++ [⟨old.col, old.row, .Literal (.Str (String.mk r.run))⟩])
      else some (.err ⟨"missing closing '\"' for string literal", old.col, old.row⟩)
    else if rustIsWhitespace c then
      let r := peekRun rustIsWhitespace (c :: t) true pos1
      scan fuel r.rest r.pulledNext r.pos r.pos acc
    else
      match punctFirst c t pos1 with
      | .emit q rest pulledNext p2 =>
        scan fuel rest pulledNext p2 p2 (acc ++ [⟨old.col, old.row, .Punct q⟩])
      | .fail pstr =>
        some (.err ⟨"Expected punctuator, got '" ++ pstr ++ "'", old.col, old.row⟩)

/-- `fn split` of src/buffers/parse.rs: run the scanner from column 1, row 1
with both boundary cells at (1, 1).  The fuel `s.length + 1` is always
sufficient (`scan_isSome`). -/
def split (s : String) : LexResult (List Parsed) :=
  (scan (s.length + 1) s.data false ⟨1, 1⟩ ⟨1, 1⟩ []).getD .abort

/-- A positioned cell: the TokenCell built by parse.rs lines 175-177, with
explicit col/row fields, generic in the payload so the token tree can nest. -/
structure Cell (α : Type) where
  col : Nat
  row : Nat
  tt : α
  deriving DecidableEq, Repr

/-- TokenTree from src/tokens.rs lines 63-69; a Group owns its nested stream
of positioned cells. -/
inductive TokenTree where
  | Ident (s : String)
  | Literal (l : Literal)
  | Punct (p : Punct)
  | Group (d : Delimeter) (ts : List (Cell TokenTree))

/-- The positioned token cells a TokenStream owns. -/
abbrev TokenCell := Cell TokenTree

/-- The Display impl for Punct generated by `define_punctuator!`. -/
def Punct.display : Punct → String
  | .Dot => "." | .Arrow => "->" | .PlusPlus => "++" | .MinusMinus => "--"
  | .Ampersand => "&" | .Asterix => "*" | .Plus => "+" | .Minus => "-"
  | .Tilde => "~" | .ExclamationMark => "!" | .Slash => "/" | .Percent => "%"
  | .DoubleLeftArrow => "<<" | .DoubleRightArrow => ">>" | .LeftArrow => "<"
  | .RightArrow => ">" | .LeftEqualArrow => "<=" | .RightEqualArrow => ">="
  | .EqualEqual => "==" | .ExclamationEqual => "!=" | .Carat => "^"
  | .VerticalBar => "|" | .DoubleAmpersand => "&&" | .DoubleVerticalBar => "||"
  | .QuestionMark => "?" | .Colon => ":" | .SemiColon => ";" | .DotDotDot => "..."
  | .Equal => "=" | .AsterixEqual => "*=" | .SlashEqual => "/=" | .PercentEqual => "%="
  | .PlusEqual => "+=" | .MinusEqual => "-=" | .DoubleLeftArrowEqual => "<<="
  | .DoubleRightArrowEqual => ">>=" | .AmpersandEqual => "&=" | .CaratEqual => "^="
  | .VerticalBarEqual => "|=" | .Comma => "," | .Hashtag => "#" | .DoubleHashtag => "##"
  | .LeftArrowColon => "<:" | .ColonRightArrow => ":>" | .LeftArrowPercent => "<%"
  | .PercentRightArrow => "%>" | .PercentColon => "%:" | .DoublePercentColon => "%:%:"

mutual

/-- The Display impl for TokenTree (src/tokens.rs lines 71-90): identifiers
and string literals render as their text (a string literal with NO quotes),
integers as their decimal form, punctuators as their canonical symbol, and a
group as its delimiters around the trimmed rendering of its nested stream.
The Float case renders a fixed text since its f64 payload is not modelled
(the lexer never constructs it). -/
def TokenTree.display : TokenTree → String
  | .Ident ident => ident
  | .Literal (.Str s) => s
  | .Literal (.Int i) => toString i
  | .Literal .Float => "0"
  | .Punct p => p.display
  | .Group g entries =>
    let s := (renderStream entries).trim
    match g with
    | .Paren => "( " ++ s ++ " )"
    | .Bracket => "[ " ++ s ++ " ]"
    | .Brace => "\x7b " ++ s ++ " \x7d"

/-- Modelled from the spec: the Display impl for TokenStream (the source file
src/buffers/mod.rs is not under src/): per spec section 4.6 each token
renders as its textual form and nested content carries surrounding
whitespace that the enclosing group trims, so each cell's tree is rendered
followed by a separating space. -/
def renderStream : List (Cell TokenTree) → String
  | [] => ""
  | ⟨_, _, tt⟩ :: t => tt.display ++ " " ++ renderStream t

end

/-- The `take_while` of parse.rs lines 186-190: collect units up to the first
End marker of the matching kind; that terminator is consumed and dropped.
If the input ends first, everything is collected and no error is raised. -/
def spanUntilEnd (g : Delimeter) : List Parsed → List Parsed × List Parsed
  | [] => ([], [])
  | x :: t =>
    match x.ty with
    | .End e =>
      if g = e then ([], t)
      else
        let r := spanUntilEnd g t
        (x :: r.1, r.2)
    | _ =>
      let r := spanUntilEnd g t
      (x :: r.1, r.2)

/-- `into_boxed` of `parsed_into_boxed_entries` (parse.rs lines 171-208),
fuel-indexed: walk the flat units; a Group unit recursively folds the
sub-run up to its matching End marker; a bare End unit is the fatal
"unexpected group delimiter" error.  `Option.none` means out of fuel, which
never happens for fuel > l.length. -/
def intoBoxedF : Nat → List Parsed → Option (Except Error (List TokenCell))
  | 0, _ => Option.none
  | _ + 1, [] => some (.ok [])
  | fuel + 1, next :: rest =>
    match next.ty with
    | .Ident s =>
      (intoBoxedF fuel rest).map (fun r =>
        r.map (fun l => ⟨next.col, next.row, .Ident s⟩ :: l))
    | .Literal lit =>
      (intoBoxedF fuel rest).map (fun r =>
        r.map (fun l => ⟨next.col, next.row, .Literal lit⟩ :: l))
    | .Punct q =>
      (intoBoxedF fuel rest).map (fun r =>
        r.map (fun l => ⟨next.col, next.row, .Punct q⟩ :: l))
    | .Group g =>
      let sp := spanUntilEnd g rest
      match intoBoxedF fuel sp.1, intoBoxedF fuel sp.2 with
      | some r1, some r2 =>
        some (r1.bind (fun inner =>
          r2.map (fun l => ⟨next.col, next.row, .Group g inner⟩ :: l)))
      | _, _ => Option.none
    | .End _ =>
      some (.error ⟨toString next.row ++ ":" ++ toString next.col ++
        " unexpected group delimiter.", next.col, next.row⟩)

/-- `pub(super) fn parse_str` (parse.rs lines 166-169): flat scan, then fold
into the boxed token-tree entries. -/
def parse_str (s : String) : LexResult (List TokenCell) :=
  match split s with
  | .ok parsed =>
    match intoBoxedF (parsed.length + 1) parsed with
    | some (.ok cells) => .ok cells
    | some (.error e) => .err e
    | Option.none => .abort
  | .err e => .err e
  | .abort => .abort

/-- Modelled from the spec: the read-only Cursor (src/buffers/mod.rs is not
under src/) is a non-owning scan position into a token stream, here the
remaining suffix of cells; `group d` peeks the current node as a Group of
delimiter kind d, yielding its nested entries and the rest of the stream. -/
def Cursor.group (d : Delimeter) : List TokenCell → Option (List TokenCell × List TokenCell)
  | ⟨_, _, TokenTree.Group d2 inner⟩ :: rest =>
    if d2 = d then some (inner, rest) else Option.none
  | _ => Option.none

/-- The position of the token cell at the cursor, used for error reporting
(origin when the stream is exhausted). -/
def cursorPos : List TokenCell → Nat × Nat
  | c :: _ => (c.col, c.row)
  | [] => (0, 0)

/-- Modelled from the spec: `ParseStream::step` (src/parse.rs is not under
src/), the atomic speculative-advance primitive of spec section 4.5: it takes
a function inspecting the current position and returning either (consumed
value, new position) or a failure; on success the stream commits to the new
position, on failure the position is left exactly as it was. -/
def ParseStream.step {α : Type} (cur : List TokenCell)
    (f : List TokenCell → Except Error (α × List TokenCell)) :
    Except Error α × List TokenCell :=
  match f cur with
  | .ok (v, c2) => (.ok v, c2)
  | .error e => (.error e, cur)

/-- `parse_inner` from `define_delimeter!` (src/tokens.rs lines 350-359):
built on the speculative-advance primitive, its closure checks the current
node is a Group of the given kind, committing past it on success and failing
with "expected <delimiter>" otherwise. -/
def parse_inner (d : Delimeter) (parse : List TokenCell) :
    Except Error (List TokenCell) × List TokenCell :=
  ParseStream.step parse (fun cursor =>
    match Cursor.group d cursor with
    | some (entries, rest) => .ok (entries, rest)
    | Option.none =>
      .error ⟨"expected " ++ d.display, (cursorPos cursor).1, (cursorPos cursor).2⟩)

/-- The remainder of a peeking run is the dropWhile of its input, regardless
of the cache flag and position counters. -/
theorem peekRun_rest_eq (g : Char → Bool) :
    ∀ (l : List Char) (b : Bool) (p : Pos), (peekRun g l b p).rest = l.dropWhile g := by
  intro l
  induction l with
  | nil => intro b p; rfl
  | cons c t ih =>
    intro b p
    by_cases h : g c
    · simp [peekRun, h, ih]
    · simp [peekRun, h, List.dropWhile_cons]

/-- The collected run of a peeking run is the takeWhile of its input. -/
theorem peekRun_run_eq (g : Char → Bool) :
    ∀ (l : List Char) (b : Bool) (p : Pos), (peekRun g l b p).run = l.takeWhile g := by
  intro l
  induction l with
  | nil => intro b p; rfl
  | cons c t ih =>
    intro b p
    by_cases h : g c
    · simp [peekRun, h, ih, List.takeWhile_cons]
    · simp [peekRun, h, List.takeWhile_cons]

/-- The string-literal scan only ever discards characters from the front. -/
theorem takeStr_rest_suffix : ∀ (l : List Char) (p : Pos), (takeStr l p).rest <:+ l := by
  intro l
  induction l with
  | nil => intro p; exact List.suffix_refl []
  | cons c t ih =>
    intro p
    by_cases h : c = '"'
    · simp [takeStr, h, List.suffix_cons]
    · simp only [takeStr, if_neg h]
      exact (ih (adv c p)).trans (List.suffix_cons c t)

/-- If the input contains no quote, the string-literal scan reports that no
closing quote was found. -/
theorem takeStr_not_found : ∀ (l : List Char) (p : Pos),
    (∀ c ∈ l, c ≠ '"') → (takeStr l p).found = false := by
  intro l
  induction l with
  | nil => intro p _; rfl
  | cons c t ih =>
    intro p h
    have hc : c ≠ '"' := h c (by simp)
    simp only [takeStr, if_neg hc]
    exact ih (adv c p) (fun d hd => h d (by simp [hd]))

/-- The punctuator loop only ever hands back a suffix of its input. -/
theorem punctLoop_emit_suffix :
    ∀ (l : List Char) (pstr : String) (cur : Option Punct) (p : Pos)
      (q : Punct) (rest : List Char) (pn : Bool) (p2 : Pos),
      punctLoop pstr cur l p = .emit q rest pn p2 → rest <:+ l := by
  intro l
  induction l with
  | nil =>
    intro pstr cur p q rest pn p2 h
    cases cur with
    | some q2 =>
      simp only [punctLoop, PunctOut.emit.injEq] at h
      rw [← h.2.1]
    | none => simp [punctLoop] at h
  | cons c t ih =>
    intro pstr cur p q rest pn p2 h
    rcases hm : match_punct (pstr.push c) with _ | _ | _
    · simp only [punctLoop, hm] at h
      exact (ih _ _ _ _ _ _ _ h).trans (List.suffix_cons c t)
    · simp only [punctLoop, hm] at h
      exact (ih _ _ _ _ _ _ _ h).trans (List.suffix_cons c t)
    · cases cur with
      | some q2 =>
        simp only [punctLoop, hm, PunctOut.emit.injEq] at h
        rw [← h.2.1]
      | none => simp [punctLoop, hm] at h

/-- The first punctuator iteration hands back a suffix of the tail (the head
character is never handed back: it was consumed by a Matched or a partial
result before the loop could stop). -/
theorem punctFirst_emit_suffix (c : Char) (t : List Char) (p : Pos)
    (q : Punct) (rest : List Char) (pn : Bool) (p2 : Pos) :
    punctFirst c t p = .emit q rest pn p2 → rest <:+ t := by
  intro h
  rcases hm : match_punct ("".push c) with _ | _ | _ <;>
    simp only [punctFirst, hm] at h
  · exact punctLoop_emit_suffix _ _ _ _ _ _ _ _ h
  · exact punctLoop_emit_suffix _ _ _ _ _ _ _ _ h
  · simp at h

/-- Dropping a run whose head matches never keeps the head. -/
theorem dropWhile_cons_length_le (g : Char → Bool) (c : Char) (t : List Char)
    (h : g c = true) : ((c :: t).dropWhile g).length ≤ t.length := by
  rw [List.dropWhile_cons, if_pos h]
  exact (List.dropWhile_suffix g).length_le

/-- An alphabetic character continues an identifier run. -/
theorem alpha_identCont (c : Char) (h : rustIsAlphabetic c = true) : identCont c = true := by
  simp [identCont, rustIsAlphanumeric, h]

/-- A numeric character continues a numeric run. -/
theorem num_numCont (c : Char) (h : rustIsNumeric c = true) : numCont c = true := by
  simp [numCont, h]

/-- Fuel exceeding the input length never runs out: every outer iteration of
the scanner consumes at least one character. -/
theorem scan_isSome : ∀ (fuel : Nat) (l : List Char) (b : Bool) (pos old : Pos)
    (acc : List Parsed), l.length < fuel → (scan fuel l b pos old acc).isSome = true := by
  intro fuel
  induction fuel with
  | zero => intro l b pos old acc h; exact absurd h (by omega)
  | succ fuel ih =>
    intro l b pos old acc h
    match l with
    | [] => simp [scan]
    | c :: t =>
      have ht : t.length < fuel := by
        simpa using Nat.lt_of_succ_lt_succ h
      by_cases ha : rustIsAlphabetic c = true
      · simp only [scan, ha, if_true]
        refine ih _ _ _ _ _ (lt_of_le_of_lt ?_ ht)
        rw [peekRun_rest_eq]
        exact dropWhile_cons_length_le _ _ _ (alpha_identCont c ha)
      · by_cases hn : rustIsNumeric c = true
        · rcases hp : parseI128 (String.mk (peekRun numCont (c :: t) true
            (if b then pos else adv c pos)).run) with _ | n
          · simp [scan, ha, hn, hp]
          · simp only [scan, ha, hn, if_true, if_false, Bool.false_eq_true, hp]
            refine ih _ _ _ _ _ (lt_of_le_of_lt ?_ ht)
            rw [peekRun_rest_eq]
            exact dropWhile_cons_length_le _ _ _ (num_numCont c hn)
        · by_cases h1 : c = '('
          · simp only [scan, ha, hn, h1, if_true, if_false, Bool.false_eq_true]
            exact ih _ _ _ _ _ ht
          · by_cases h2 : c = ')'
            · simp only [scan, ha, hn, h1, h2, if_true, if_false, Bool.false_eq_true]
              exact ih _ _ _ _ _ ht
            · by_cases h3 : c = '\x7b'
              · simp only [scan, ha, hn, h1, h2, h3, if_true, if_false, Bool.false_eq_true]
                exact ih _ _ _ _ _ ht
              · by_cases h4 : c = '\x7d'
                · simp only [scan, ha, hn, h1, h2, h3, h4, if_true, if_false,
                    Bool.false_eq_true]
                  exact ih _ _ _ _ _ ht
                · by_cases h5 : c = '['
                  · simp only [scan, ha, hn, h1, h2, h3, h4, h5, if_true, if_false,
                      Bool.false_eq_true]
                    exact ih _ _ _ _ _ ht
                  · by_cases h6 : c = ']'
                    · simp only [scan, ha, hn, h1, h2, h3, h4, h5, h6, if_true, if_false,
                        Bool.false_eq_true]
                      exact ih _ _ _ _ _ ht
                    · by_cases h7 : c = '"'
                      · subst h7
                        have g1 : rustIsAlphabetic '"' = false := by decide
                        have g2 : rustIsNumeric '"' = false := by decide
                        have g3 : ¬(('"' : Char) = '(') := by decide
                        have g4 : ¬(('"' : Char) = ')') := by decide
                        have g5 : ¬(('"' : Char) = '\x7b') := by decide
                        have g6 : ¬(('"' : Char) = '\x7d') := by decide
                        have g7 : ¬(('"' : Char) = '[') := by decide
                        have g8 : ¬(('"' : Char) = ']') := by decide
                        by_cases hf : (takeStr t (if b then pos else adv '"' pos)).found = true
                        · simp only [scan, g1, g2, g3, g4, g5, g6, g7, g8, hf, if_true,
                            if_false, Bool.false_eq_true]
                          refine ih _ _ _ _ _ (lt_of_le_of_lt ?_ ht)
                          exact (takeStr_rest_suffix t _).length_le
                        · simp [scan, g1, g2, g3, g4, g5, g6, g7, g8, hf]
                      · by_cases h8 : rustIsWhitespace c = true
                        · simp only [scan, ha, hn, h1, h2, h3, h4, h5, h6, h7, h8, if_true,
                            if_false, Bool.false_eq_true]
                          refine ih _ _ _ _ _ (lt_of_le_of_lt ?_ ht)
                          rw [peekRun_rest_eq]
                          exact dropWhile_cons_length_le _ _ _ h8
                        · rcases hp : punctFirst c t (if b then pos else adv c pos) with
                            ⟨q, rest, pn, p2⟩ | pstr
                          · simp only [scan, ha, hn, h1, h2, h3, h4, h5, h6, h7, h8, hp,
                              if_true, if_false, Bool.false_eq_true]
                            refine ih _ _ _ _ _ (lt_of_le_of_lt ?_ ht)
                            exact (punctFirst_emit_suffix c t _ q rest pn p2 hp).length_le
                          · simp [scan, ha, hn, h1, h2, h3, h4, h5, h6, h7, h8, hp]

/-- The scanner aborts only from the numeric branch: whenever it returns the
process-abort outcome, some suffix of the input starts with a numeric
character whose maximal digits-and-dots run fails the 128-bit integer parse. -/
theorem scan_abort : ∀ (fuel : Nat) (l : List Char) (b : Bool) (pos old : Pos)
    (acc : List Parsed), scan fuel l b pos old acc = some .abort →
    ∃ c2 t2, (c2 :: t2) <:+ l ∧ rustIsNumeric c2 = true ∧
      parseI128 (String.mk ((c2 :: t2).takeWhile numCont)) = Option.none := by
  intro fuel
  induction fuel with
  | zero => intro l b pos old acc h; simp [scan] at h
  | succ fuel ih =>
    intro l b pos old acc h
    match l with
    | [] => simp [scan] at h
    | c :: t =>
      by_cases ha : rustIsAlphabetic c = true
      · simp only [scan, ha, if_true] at h
        obtain ⟨c2, t2, hs, hn2, hp2⟩ := ih _ _ _ _ _ h
        refine ⟨c2, t2, ?_, hn2, hp2⟩
        rw [peekRun_rest_eq] at hs
        exact hs.trans (List.dropWhile_suffix identCont)
      · by_cases hn : rustIsNumeric c = true
        · rcases hp : parseI128 (String.mk (peekRun numCont (c :: t) true
            (if b then pos else adv c pos)).run) with _ | n
          · refine ⟨c, t, List.suffix_refl _, hn, ?_⟩
            rw [peekRun_run_eq] at hp
            exact hp
          · simp only [scan, ha, hn, if_true, if_false, Bool.false_eq_true, hp] at h
            obtain ⟨c2, t2, hs, hn2, hp2⟩ := ih _ _ _ _ _ h
            refine ⟨c2, t2, ?_, hn2, hp2⟩
            rw [peekRun_rest_eq] at hs
            exact hs.trans (List.dropWhile_suffix numCont)
        · by_cases h1 : c = '('
          · simp only [scan, ha, hn, h1, if_true, if_false, Bool.false_eq_true] at h
            obtain ⟨c2, t2, hs, hn2, hp2⟩ := ih _ _ _ _ _ h
            exact ⟨c2, t2, hs.trans (List.suffix_cons c t), hn2, hp2⟩
          · by_cases h2 : c = ')'
            · simp only [scan, ha, hn, h1, h2, if_true, if_false, Bool.false_eq_true] at h
              obtain ⟨c2, t2, hs, hn2, hp2⟩ := ih _ _ _ _ _ h
              exact ⟨c2, t2, hs.trans (List.suffix_cons c t), hn2, hp2⟩
            · by_cases h3 : c = '\x7b'
              · simp only [scan, ha, hn, h1, h2, h3, if_true, if_false,
                  Bool.false_eq_true] at h
                obtain ⟨c2, t2, hs, hn2, hp2⟩ := ih _ _ _ _ _ h
                exact ⟨c2, t2, hs.trans (List.suffix_cons c t), hn2, hp2⟩
              · by_cases h4 : c = '\x7d'
                · simp only [scan, ha, hn, h1, h2, h3, h4, if_true, if_false,
                    Bool.false_eq_true] at h
                  obtain ⟨c2, t2, hs, hn2, hp2⟩ := ih _ _ _ _ _ h
                  exact ⟨c2, t2, hs.trans (List.suffix_cons c t), hn2, hp2⟩
                · by_cases h5 : c = '['
                  · simp only [scan, ha, hn, h1, h2, h3, h4, h5, if_true, if_false,
                      Bool.false_eq_true] at h
                    obtain ⟨c2, t2, hs, hn2, hp2⟩ := ih _ _ _ _ _ h
                    exact ⟨c2, t2, hs.trans (List.suffix_cons c t), hn2, hp2⟩
                  · by_cases h6 : c = ']'
                    · simp only [scan, ha, hn, h1, h2, h3, h4, h5, h6, if_true, if_false,
                        Bool.false_eq_true] at h
                      obtain ⟨c2, t2, hs, hn2, hp2⟩ := ih _ _ _ _ _ h
                      exact ⟨c2, t2, hs.trans (List.suffix_cons c t), hn2, hp2⟩
                    · by_cases h7 : c = '"'
                      · subst h7
                        have g1 : rustIsAlphabetic '"' = false := by decide
                        have g2 : rustIsNumeric '"' = false := by decide
                        have g3 : ¬(('"' : Char) = '(') := by decide
                        have g4 : ¬(('"' : Char) = ')') := by decide
                        have g5 : ¬(('"' : Char) = '\x7b') := by decide
                        have g6 : ¬(('"' : Char) = '\x7d') := by decide
                        have g7 : ¬(('"' : Char) = '[') := by decide
                        have g8 : ¬(('"' : Char) = ']') := by decide
                        by_cases hf : (takeStr t (if b then pos else adv '"' pos)).found = true
                        · simp only [scan, g1, g2, g3, g4, g5, g6, g7, g8, hf, if_true,
                            if_false, Bool.false_eq_true] at h
                          obtain ⟨c2, t2, hs, hn2, hp2⟩ := ih _ _ _ _ _ h
                          exact ⟨c2, t2,
                            (hs.trans (takeStr_rest_suffix t _)).trans
                              (List.suffix_cons '"' t), hn2, hp2⟩
                        · simp [scan, g1, g2, g3, g4, g5, g6, g7, g8, hf] at h
                      · by_cases h8 : rustIsWhitespace c = true
                        · simp only [scan, ha, hn, h1, h2, h3, h4, h5, h6, h7, h8, if_true,
                            if_false, Bool.false_eq_true] at h
                          obtain ⟨c2, t2, hs, hn2, hp2⟩ := ih _ _ _ _ _ h
                          refine ⟨c2, t2, ?_, hn2, hp2⟩
                          rw [peekRun_rest_eq] at hs
                          exact hs.trans (List.dropWhile_suffix rustIsWhitespace)
                        · rcases hp : punctFirst c t (if b then pos else adv c pos) with
                            ⟨q, rest, pn, p2⟩ | pstr
                          · simp only [scan, ha, hn, h1, h2, h3, h4, h5, h6, h7, h8, hp,
                              if_true, if_false, Bool.false_eq_true] at h
                            obtain ⟨c2, t2, hs, hn2, hp2⟩ := ih _ _ _ _ _ h
                            exact ⟨c2, t2,
                              (hs.trans (punctFirst_emit_suffix c t _ q rest pn p2 hp)).trans
                                (List.suffix_cons c t), hn2, hp2⟩
                          · simp [scan, ha, hn, h1, h2, h3, h4, h5, h6, h7, h8, hp] at h

/-- Both outputs of the group sub-run split are no longer than the input. -/
theorem spanUntilEnd_length (g : Delimeter) : ∀ (l : List Parsed),
    (spanUntilEnd g l).1.length ≤ l.length ∧ (spanUntilEnd g l).2.length ≤ l.length := by
  intro l
  induction l with
  | nil => exact ⟨le_refl 0, le_refl 0⟩
  | cons x t ih =>
    rcases hx : x.ty with s | lit | q | d | e
    · simp only [spanUntilEnd, hx, List.length_cons]
      exact ⟨Nat.succ_le_succ ih.1, ih.2.trans (Nat.le_succ _)⟩
    · simp only [spanUntilEnd, hx, List.length_cons]
      exact ⟨Nat.succ_le_succ ih.1, ih.2.trans (Nat.le_succ _)⟩
    · simp only [spanUntilEnd, hx, List.length_cons]
      exact ⟨Nat.succ_le_succ ih.1, ih.2.trans (Nat.le_succ _)⟩
    · simp only [spanUntilEnd, hx, List.length_cons]
      exact ⟨Nat.succ_le_succ ih.1, ih.2.trans (Nat.le_succ _)⟩
    · by_cases hg : g = e
      · simp only [spanUntilEnd, hx, if_pos hg, List.length_cons]
        exact ⟨Nat.zero_le _, Nat.le_succ _⟩
      · simp only [spanUntilEnd, hx, if_neg hg, List.length_cons]
        exact ⟨Nat.succ_le_succ ih.1, ih.2.trans (Nat.le_succ _)⟩

/-- Fuel exceeding the input length never runs out in the tree builder. -/
theorem intoBoxedF_isSome : ∀ (fuel : Nat) (l : List Parsed),
    l.length < fuel → (intoBoxedF fuel l).isSome = true := by
  intro fuel
  induction fuel with
  | zero => intro l h; exact absurd h (by omega)
  | succ fuel ih =>
    intro l h
    match l with
    | [] => simp [intoBoxedF]
    | next :: rest =>
      have ht : rest.length < fuel := by simpa using Nat.lt_of_succ_lt_succ h
      rcases hx : next.ty with s | lit | q | g | e
      · rcases Option.isSome_iff_exists.mp (ih _ ht) with ⟨r, hr⟩
        simp [intoBoxedF, hx, hr]
      · rcases Option.isSome_iff_exists.mp (ih _ ht) with ⟨r, hr⟩
        simp [intoBoxedF, hx, hr]
      · rcases Option.isSome_iff_exists.mp (ih _ ht) with ⟨r, hr⟩
        simp [intoBoxedF, hx, hr]
      · have h1 : (spanUntilEnd g rest).1.length < fuel :=
          lt_of_le_of_lt (spanUntilEnd_length g rest).1 ht
        have h2 : (spanUntilEnd g rest).2.length < fuel :=
          lt_of_le_of_lt (spanUntilEnd_length g rest).2 ht
        have s1 := ih _ h1
        have s2 := ih _ h2
        rcases Option.isSome_iff_exists.mp s1 with ⟨r1, hr1⟩
        rcases Option.isSome_iff_exists.mp s2 with ⟨r2, hr2⟩
        simp [intoBoxedF, hx, hr1, hr2]
      · simp [intoBoxedF, hx]

/-- A whitespace character is one of the four ASCII whitespace characters in
this model. -/
theorem ws_char_cases (c : Char) (h : rustIsWhitespace c = true) :
    c = ' ' ∨ c = '\t' ∨ c = '\r' ∨ c = '\n' := by
  have h2 := h
  simp only [rustIsWhitespace, Char.isWhitespace, Bool.or_eq_true,
    decide_eq_true_eq] at h2
  tauto

/-- One scanner step on a whitespace head consumes the maximal whitespace
run, emits nothing, and moves both boundary cells to the current counters. -/
theorem scan_ws_step (fuel : Nat) (c : Char) (t : List Char) (b : Bool)
    (pos old : Pos) (acc : List Parsed) (hw : rustIsWhitespace c = true) :
    scan (fuel + 1) (c :: t) b pos old acc =
      scan fuel (peekRun rustIsWhitespace (c :: t) true (if b then pos else adv c pos)).rest
        (peekRun rustIsWhitespace (c :: t) true (if b then pos else adv c pos)).pulledNext
        (peekRun rustIsWhitespace (c :: t) true (if b then pos else adv c pos)).pos
        (peekRun rustIsWhitespace (c :: t) true (if b then pos else adv c pos)).pos acc := by
  rcases ws_char_cases c hw with rfl | rfl | rfl | rfl <;> rfl

/-- A scanner step on an underscore head is the fatal punctuator error: the
underscore is not alphabetic and starts no punctuator-table entry. -/
theorem scan_underscore (fuel : Nat) (t : List Char) (b : Bool) (pos old : Pos)
    (acc : List Parsed) :
    scan (fuel + 1) ('_' :: t) b pos old acc =
      some (.err ⟨"Expected punctuator, got '_'", old.col, old.row⟩) := rfl

/-- A scanner step on a quote head whose tail contains no further quote is
the fatal missing-closing-quote error, carrying the boundary cells. -/
theorem scan_quote_err (fuel : Nat) (t : List Char) (b : Bool) (pos old : Pos)
    (acc : List Parsed) (hq : ∀ c ∈ t, c ≠ '"') :
    scan (fuel + 1) ('"' :: t) b pos old acc =
      some (.err ⟨"missing closing '\"' for string literal", old.col, old.row⟩) := by
  have hf : (takeStr t (if b then pos else adv '"' pos)).found = false :=
    takeStr_not_found t _ hq
  have g1 : rustIsAlphabetic '"' = false := by decide
  have g2 : rustIsNumeric '"' = false := by decide
  have g3 : ¬(('"' : Char) = '(') := by decide
  have g4 : ¬(('"' : Char) = ')') := by decide
  have g5 : ¬(('"' : Char) = '\x7b') := by decide
  have g6 : ¬(('"' : Char) = '\x7d') := by decide
  have g7 : ¬(('"' : Char) = '[') := by decide
  have g8 : ¬(('"' : Char) = ']') := by decide
  simp [scan, g1, g2, g3, g4, g5, g6, g7, g8, hf]

/-- Two scanner steps: a whitespace head consumes the maximal whitespace run,
and an underscore next is the fatal punctuator error. -/
theorem scan_ws_underscore (fuel : Nat) (c : Char) (t r : List Char) (b : Bool)
    (pos old : Pos) (acc : List Parsed) (hw : rustIsWhitespace c = true)
    (hdw : (c :: t).dropWhile rustIsWhitespace = '_' :: r) :
    ∃ e, scan (fuel + 1 + 1) (c :: t) b pos old acc = some (.err e) ∧
      e.msg = "Expected punctuator, got '_'" := by
  rw [scan_ws_step (fuel + 1) c t b pos old acc hw]
  have hr : (peekRun rustIsWhitespace (c :: t) true
      (if b then pos else adv c pos)).rest = '_' :: r := by
    rw [peekRun_rest_eq]; exact hdw
  rw [hr, scan_underscore fuel r]
  exact ⟨_, rfl, rfl⟩

/-- C1: the speculative-advance primitive is atomic: for every cursor
position and every step closure, a failing closure leaves the stream's
position exactly as it was (no partial consumption), and a succeeding
closure commits the stream to the returned new position; `parse_inner`,
built on the primitive, likewise restores the position on failure. -/
theorem c1_step_atomicity {α : Type} (cur : List TokenCell)
    (f : List TokenCell → Except Error (α × List TokenCell)) :
    (∀ e, f cur = .error e → ParseStream.step cur f = (.error e, cur)) ∧
    (∀ v c2, f cur = .ok (v, c2) → ParseStream.step cur f = (.ok v, c2)) ∧
    (∀ (d : Delimeter) (e : Error), (parse_inner d cur).1 = .error e →
      (parse_inner d cur).2 = cur) := by
  refine ⟨?_, ?_, ?_⟩
  · intro e he
    simp [ParseStream.step, he]
  · intro v c2 hv
    simp [ParseStream.step, hv]
  · intro d e he
    unfold parse_inner at he ⊢
    rcases hg : Cursor.group d cur with _ | ⟨entries, rest⟩
    · simp [ParseStream.step, hg]
    · simp [ParseStream.step, hg] at he

/-- Witness for C1 at a concrete stream and failing closure. -/
theorem c1_witness :
    ParseStream.step ([] : List TokenCell)
        (fun _ => (Except.error ⟨"expected (", 0, 0⟩ :
          Except Error (Nat × List TokenCell))) =
      (.error ⟨"expected (", 0, 0⟩, []) :=
  (c1_step_atomicity [] _).1 ⟨"expected (", 0, 0⟩ rfl

/-- C2: for every multi-character punctuator string in the fixed table,
lexing exactly that string yields exactly one punctuator unit of the
corresponding variant (never a shorter split). -/
theorem c2_multichar_punctuator :
    ∀ e ∈ MATCH_PUNCT, 2 ≤ e.1.length →
      split e.1 = .ok [⟨1, 1, .Punct e.2⟩] := by decide

/-- Witness for C2 at the `<<=` table entry. -/
theorem c2_witness :
    ("<<=", Punct.DoubleLeftArrowEqual) ∈ MATCH_PUNCT ∧
      split "<<=" = .ok [⟨1, 1, .Punct .DoubleLeftArrowEqual⟩] :=
  ⟨by decide,
    c2_multichar_punctuator ("<<=", Punct.DoubleLeftArrowEqual) (by decide) (by decide)⟩

/-- C3 counterexample: on `%:%` (Matched `%`, Matched `%:`, then a partial
match at `%:%` and end of input) the scanner does NOT fall back to the last
Matched result `%:`: it fails with the fatal punctuator error, because the
partial-match transition discarded the recorded result. -/
theorem c3_counterexample :
    split "%:%" = .err ⟨"Expected punctuator, got '%:%'", 1, 1⟩ := rfl

/-- C3 amended: when the candidate's match result becomes partial after a
Matched result, the recorded Matched result is discarded; if it never
re-matches before None or end of input the scan is a fatal "Expected
punctuator" error (`%:%` at end of input, `%:%` followed by a letter).  The
fall-back to the last Matched result happens only when the result goes
directly from Matched to None with no intervening partial state (`<<a`). -/
theorem c3_amended_partial_discards_match :
    split "%:%" = .err ⟨"Expected punctuator, got '%:%'", 1, 1⟩ ∧
      split "%:%a" = .err ⟨"Expected punctuator, got '%:%a'", 1, 1⟩ ∧
      split "<<a" = .ok [⟨1, 1, .Punct .DoubleLeftArrow⟩, ⟨4, 1, .Ident "a"⟩] :=
  ⟨rfl, rfl, rfl⟩

/-- C4 counterexample: a group-open marker with no matching close before end
of input does NOT produce a fatal "unterminated group" error: tokenizing
`(` succeeds, silently treating the open group as closed at end of input. -/
theorem c4_counterexample :
    parse_str "(" = .ok [⟨1, 1, .Group .Paren []⟩] := rfl

/-- C4 amended: the builder's sub-run collection stops silently at end of
input, so an unterminated group is treated as closed there: `(` yields one
empty Paren group and `( [` yields nested silently-closed groups; no
"unterminated group" error exists in the code. -/
theorem c4_amended_silent_close_at_eof :
    parse_str "(" = .ok [⟨1, 1, .Group .Paren []⟩] ∧
      parse_str "( [" = .ok [⟨1, 1, .Group .Paren [⟨4, 1, .Group .Bracket []⟩]⟩] :=
  ⟨rfl, rfl⟩

/-- C5 counterexample: a close marker of a different kind occurring before
the correct one is NOT silently absorbed with tokenization succeeding:
tokenizing `( ] )` fails with the "unexpected group delimiter" error raised
at the absorbed `]` by the recursive build of the nested stream. -/
theorem c5_counterexample :
    parse_str "( ] )" = .err ⟨"1:4 unexpected group delimiter.", 4, 1⟩ := rfl

/-- C5 amended: group folding does take the first close marker of the
matching kind as terminator and keeps scanning past close markers of other
kinds, collecting them into the sub-run (third conjunct); but the recursive
build of that sub-run then rejects the absorbed mismatched closer with an
"unexpected group delimiter" error, so tokenization of `( ] )` fails rather
than succeeds.  Nesting of distinct kinds still folds correctly. -/
theorem c5_amended_mismatched_closer_rejected_in_recursion :
    parse_str "( ] )" = .err ⟨"1:4 unexpected group delimiter.", 4, 1⟩ ∧
      parse_str "( [ ] )" =
        .ok [⟨1, 1, .Group .Paren [⟨4, 1, .Group .Bracket []⟩]⟩] ∧
      spanUntilEnd .Paren [⟨4, 1, .End .Bracket⟩, ⟨6, 1, .End .Paren⟩] =
        ([⟨4, 1, .End .Bracket⟩], []) :=
  ⟨rfl, rfl, rfl⟩

/-- C6: tokenize never faults uncatchably except through the integer-parse
unwrap: whenever the result is the process abort, the input has a suffix
starting with a digit whose maximal digits-and-dots run fails signed 128-bit
integer parsing; and `1.5` is such an aborting input. -/
theorem c6_no_uncatchable_fault :
    (∀ s : String, parse_str s = .abort →
      ∃ pre c rest, s.data = pre ++ c :: rest ∧ rustIsNumeric c = true ∧
        parseI128 (String.mk ((c :: rest).takeWhile numCont)) = Option.none) ∧
      parse_str "1.5" = .abort := by
  constructor
  · intro s h
    have hsp : split s = .abort := by
      rcases hs : split s with v | e | _
      · simp only [parse_str, hs] at h
        have hbs := intoBoxedF_isSome (v.length + 1) v (by omega)
        rcases Option.isSome_iff_exists.mp hbs with ⟨r, hr⟩
        rw [hr] at h
        rcases r with e2 | cells <;> simp at h
      · simp [parse_str, hs] at h
      · rfl
    unfold split at hsp
    have hlen : s.data.length < s.length + 1 := by
      have hx : s.length = s.data.length := rfl
      omega
    have hsome := scan_isSome (s.length + 1) s.data false ⟨1, 1⟩ ⟨1, 1⟩ [] hlen
    rcases Option.isSome_iff_exists.mp hsome with ⟨r, hr⟩
    rw [hr] at hsp
    simp only [Option.getD_some] at hsp
    subst hsp
    obtain ⟨c2, t2, hsuf, hn, hp⟩ := scan_abort _ _ _ _ _ _ hr
    rcases hsuf with ⟨pre, hpre⟩
    exact ⟨pre, c2, t2, hpre.symm, hn, hp⟩
  · rfl

/-- Witness for C6 at the aborting input `1.5`. -/
theorem c6_witness :
    ∃ pre c rest, ("1.5" : String).data = pre ++ c :: rest ∧
      rustIsNumeric c = true ∧
      parseI128 (String.mk ((c :: rest).takeWhile numCont)) = Option.none :=
  c6_no_uncatchable_fault.1 "1.5" c6_no_uncatchable_fault.2

/-- C7 counterexample: tokenizing `a "bc` fails with the missing-closing-
quote error carried at column 4, while the opening quote sits at column 3
(zero-based index 2): the recorded boundary position is one column past the
quote because the quote was already pulled by the whitespace run's final
peek before the boundary cells were reset. -/
theorem c7_counterexample :
    split "a \"bc" = .err ⟨"missing closing '\"' for string literal", 4, 1⟩ ∧
      ("a \"bc" : String).data.findIdx (fun c => c == '"') = 2 :=
  ⟨rfl, rfl⟩

/-- C7 amended: an unterminated string literal fails with the
missing-closing-quote LexError carrying the last token-boundary position;
that position equals the opening quote's position whenever the quote starts
the input (in particular `"abc` fails at row 1, column 1), but can sit one
column past the quote when a token or whitespace precedes it on the line. -/
theorem c7_amended_unterminated_string :
    ∀ rest : List Char, (∀ c ∈ rest, c ≠ '"') →
      split (String.mk ('"' :: rest)) =
        .err ⟨"missing closing '\"' for string literal", 1, 1⟩ := by
  intro rest h
  have e0 : split (String.mk ('"' :: rest)) =
      (scan (rest.length + 1 + 1) ('"' :: rest) false ⟨1, 1⟩ ⟨1, 1⟩ []).getD .abort := rfl
  rw [e0, scan_quote_err (rest.length + 1) rest false ⟨1, 1⟩ ⟨1, 1⟩ [] h]
  rfl

/-- Witness for C7 (amended) at the input `"abc`. -/
theorem c7_witness :
    split (String.mk ('"' :: ['a', 'b', 'c'])) =
      .err ⟨"missing closing '\"' for string literal", 1, 1⟩ :=
  c7_amended_unterminated_string ['a', 'b', 'c'] (by decide)

/-- C8: tokenizing the two-line source `a\nbb` assigns the identifier `a`
the 1-based position row 1, column 1 and the identifier `bb` row 2 with the
column reset to 1 relative to the start of line 2. -/
theorem c8_positions :
    split "a\nbb" = .ok [⟨1, 1, .Ident "a"⟩, ⟨1, 2, .Ident "bb"⟩] := rfl

/-- C9: for every input whose first non-whitespace character is `_`,
tokenize fails with the "Expected punctuator" lex error (underscore is not
alphabetic and starts no punctuator-table entry), even though `_` is
accepted inside an identifier run after an alphabetic first character. -/
theorem c9_underscore_rejected :
    (∀ s : String, (s.data.dropWhile rustIsWhitespace).head? = some '_' →
      ∃ e, split s = .err e ∧ e.msg = "Expected punctuator, got '_'") ∧
      split "a_b" = .ok [⟨1, 1, .Ident "a_b"⟩] := by
  constructor
  · intro s h
    rcases hd : s.data with _ | ⟨c, t⟩
    · rw [hd] at h
      simp at h
    · have hlen : s.length = t.length + 1 := by
        have hx : s.length = s.data.length := rfl
        rw [hx, hd]
        rfl
      have e0 : split s = (scan (s.length + 1) s.data false ⟨1, 1⟩ ⟨1, 1⟩ []).getD .abort := rfl
      by_cases hw : rustIsWhitespace c = true
      · rw [hd, List.dropWhile_cons, if_pos hw] at h
        rcases hdw : t.dropWhile rustIsWhitespace with _ | ⟨c2, r⟩
        · rw [hdw] at h
          simp at h
        · rw [hdw] at h
          simp only [List.head?_cons, Option.some.injEq] at h
          subst h
          obtain ⟨e, he, hm⟩ := scan_ws_underscore t.length c t r false ⟨1, 1⟩ ⟨1, 1⟩ [] hw
            (by rw [List.dropWhile_cons, if_pos hw, hdw])
          refine ⟨e, ?_, hm⟩
          rw [e0, hd, hlen, he]
          rfl
      · rw [hd, List.dropWhile_cons, if_neg hw] at h
        simp only [List.head?_cons, Option.some.injEq] at h
        subst h
        refine ⟨⟨"Expected punctuator, got '_'", 1, 1⟩, ?_, rfl⟩
        rw [e0, hd, hlen, scan_underscore (t.length + 1) t false ⟨1, 1⟩ ⟨1, 1⟩ []]
        rfl
  · rfl

/-- Witness for C9 at the input `_x`. -/
theorem c9_witness :
    ∃ e, split "_x" = .err e ∧ e.msg = "Expected punctuator, got '_'" :=
  c9_underscore_rejected.1 "_x" (by decide)

/-- C10: rendering a string literal token yields its content with no
surrounding quotes, so tokenize does not invert rendering: `"abc"` lexes to
a single string-literal token, that token renders as `abc`, and `abc`
re-tokenizes as an identifier token, which differs from the original
string-literal token. -/
theorem c10_render_not_inverse :
    parse_str "\"abc\"" = .ok [⟨1, 1, .Literal (.Str "abc")⟩] ∧
      TokenTree.display (.Literal (.Str "abc")) = "abc" ∧
      parse_str "abc" = .ok [⟨1, 1, .Ident "abc"⟩] ∧
      TokenTree.Ident "abc" ≠ TokenTree.Literal (.Str "abc") := by
  refine ⟨rfl, rfl, rfl, ?_⟩
  intro h
  exact TokenTree.noConfusion h
